import Mathlib

set_option maxRecDepth 10000

/-!
Verification development for the `target-hdfs` singer target.

The definitions below are a shallow embedding of the Python sources:
`target_hdfs/helpers.py`, `target_hdfs/__init__.py`, `target_hdfs/utils/__init__.py`,
`target_hdfs/utils/parquet.py` and `target_hdfs/utils/hdfs.py`.
Python dictionaries are modelled as insertion-ordered association lists,
JSON/Python values as the inductive `PyVal`, machine integers as `Nat`/`Int`
(no overflow is relevant here), floating-point thresholds as `ℚ`, and
exceptions as `Except`.
-/

namespace TargetHdfs

/-! ## Python/JSON values

`PyVal`, `PyList` and `PyDict` model the Python values that records and
states carry (`None`, booleans, ints, strings, lists, dicts).  JSON floats
are orthogonal to every property proved here and are omitted.  The three
types are a mutual inductive so that recursion over nested dictionaries is
available without fuel. -/

mutual
inductive PyVal where
  | pnull
  | pbool (b : Bool)
  | pint (n : Int)
  | pstr (s : String)
  | plist (xs : PyList)
  | pdict (d : PyDict)
deriving DecidableEq
inductive PyList where
  | nil
  | cons (v : PyVal) (rest : PyList)
deriving DecidableEq
inductive PyDict where
  | nil
  | cons (k : String) (v : PyVal) (rest : PyDict)
deriving DecidableEq
end

/-- A flattened record: the Python dict produced by `helpers.flatten`
(insertion-ordered association list from column name to cell value,
`pnull` standing for Python `None`). -/
abbrev FlatRecord := List (String × PyVal)

/-- Python dict assignment `d[k] = v`: overwrite in place when the key is
present (keeping its position), append at the end otherwise. -/
def pySet {α : Type} : List (String × α) → String → α → List (String × α)
  | [], k, v => [(k, v)]
  | (k', v') :: rest, k, v =>
      if k' = k then (k, v) :: rest else (k', v') :: pySet rest k v

/-- Python `d.update(other)`: assign every binding of `other` into `d`,
in `other`'s iteration order. -/
def pyUpdate {α : Type} (items other : List (String × α)) : List (String × α) :=
  other.foldl (fun acc kv => pySet acc kv.1 kv.2) items

/-- Keys of an association list (Python `d.keys()`), in order. -/
def pyKeys {α : Type} (d : List (String × α)) : List String := d.map Prod.fst

/-! ## Python `str()` (repr) of values — used by `helpers.flatten` on lists -/

/-- The single-quote character (written via its code point to keep the
source free of bare quote characters). -/
def squote : Char := Char.ofNat 39

/-- The double-quote character. -/
def dquote : Char := Char.ofNat 34

/-- Escaping inside a Python string repr delimited by `q`: backslashes and
the delimiter are escaped.  (Control-character escapes such as `\n` are not
modelled; no input used below contains them.) -/
def pyStrEscape (q : Char) (s : String) : String :=
  s.toList.foldl
    (fun acc c =>
      if c = '\\' then acc ++ "\\\\"
      else if c = q then acc ++ "\\" ++ String.singleton q
      else acc ++ String.singleton c) ""

/-- Python `repr` of a `str`: single-quoted, except double-quoted when the
string contains a single quote but no double quote. -/
def pyStrRepr (s : String) : String :=
  let q : Char := if s.toList.contains squote && !(s.toList.contains dquote) then dquote else squote
  String.singleton q ++ pyStrEscape q s ++ String.singleton q

mutual
/-- Python `str(value)` (= `repr` for containers): `None`/`True`/`False`
literals, decimal ints, quoted strings, `[...]`/`{...}` containers with
`, ` separators — the host language's native repr. -/
def pyRepr : PyVal → String
  | .pnull => "None"
  | .pbool true => "True"
  | .pbool false => "False"
  | .pint n => toString n
  | .pstr s => pyStrRepr s
  | .plist xs => "[" ++ pyReprList xs ++ "]"
  | .pdict d => "\x7b" ++ pyReprDict d ++ "\x7d"
def pyReprList : PyList → String
  | .nil => ""
  | .cons v .nil => pyRepr v
  | .cons v rest => pyRepr v ++ ", " ++ pyReprList rest
def pyReprDict : PyDict → String
  | .nil => ""
  | .cons k v .nil => pyStrRepr k ++ ": " ++ pyRepr v
  | .cons k v rest => pyStrRepr k ++ ": " ++ pyRepr v ++ ", " ++ pyReprDict rest
end

/-- JSON escaping: double-quoted, backslashes and double quotes escaped. -/
def jsonStrLit (s : String) : String :=
  let body := s.toList.foldl
    (fun acc c =>
      if c = '\\' then acc ++ "\\\\"
      else if c = dquote then acc ++ "\\" ++ String.singleton dquote
      else acc ++ String.singleton c) ""
  String.singleton dquote ++ body ++ String.singleton dquote

mutual
/-- `json.dumps` with default separators: the stable canonical textual form
the spec describes — double-quoted strings, `true`/`false`/`null` literals,
unquoted numeric literals. -/
def jsonDumps : PyVal → String
  | .pnull => "null"
  | .pbool true => "true"
  | .pbool false => "false"
  | .pint n => toString n
  | .pstr s => jsonStrLit s
  | .plist xs => "[" ++ jsonDumpsList xs ++ "]"
  | .pdict d => "\x7b" ++ jsonDumpsDict d ++ "\x7d"
def jsonDumpsList : PyList → String
  | .nil => ""
  | .cons v .nil => jsonDumps v
  | .cons v rest => jsonDumps v ++ ", " ++ jsonDumpsList rest
def jsonDumpsDict : PyDict → String
  | .nil => ""
  | .cons k v .nil => jsonStrLit k ++ ": " ++ jsonDumps v
  | .cons k v rest => jsonStrLit k ++ ": " ++ jsonDumps v ++ ", " ++ jsonDumpsDict rest
end

/-! ## `helpers.flatten` (helpers.py lines 15-56) -/

/-- `flat_schema.fromkeys(flat_schema.keys(), None)`: every schema key
pre-seeded to `None`. -/
def seedNull (flat_schema : List String) : FlatRecord :=
  flat_schema.map (fun k => (k, PyVal.pnull))

/-- The value stored for a leaf: `str(value) if isinstance(value, list) else value`. -/
def leafCell (v : PyVal) : PyVal :=
  match v with
  | .plist xs => .pstr (pyRepr (.plist xs))
  | v => v

/-- The loop body of `helpers.flatten`, iterating over the record's items
with the accumulated `items` dict.  The recursive call on a nested mapping
starts from `{}` when its `parent_key` (here `new_key`) is non-empty and
from the null-seeded schema otherwise, exactly as the Python
`items = {} if parent_key else flat_schema.fromkeys(...)` does.
`flat_schema` stands for the Python schema dict through the only two
operations `flatten` performs on it: `fromkeys` over its keys and
`new_key in flat_schema` membership, so it is passed as its key list. -/
def flattenAux (d : PyDict) (flat_schema : List String) (parent_key sep : String)
    (items : FlatRecord) : FlatRecord :=
  match d with
  | .nil => items
  | .cons key value rest =>
      let new_key := if parent_key = "" then key else parent_key ++ sep ++ key
      let items' :=
        match value with
        | .pdict sub =>
            let subInit : FlatRecord := if new_key = "" then seedNull flat_schema else []
            pyUpdate items (flattenAux sub flat_schema new_key sep subInit)
        | v => if new_key ∈ flat_schema then pySet items new_key (leafCell v) else items
      flattenAux rest flat_schema parent_key sep items'

/-- `helpers.flatten(dictionary, flat_schema)` with the default
`parent_key=""`, `sep="__"`. -/
def flatten (dictionary : PyDict) (flat_schema : List String) : FlatRecord :=
  flattenAux dictionary flat_schema "" "__" (seedNull flat_schema)

/-- The flattened leaf assignments of a raw record, independent of any
schema: the same traversal as `flattenAux` (same key joining with `sep`,
same recursion into sub-dicts), but recording every leaf path with the
value `flatten` would store there (`leafCell`), with no schema filter and
no accumulator.  A path `k` is "absent from (or null in)" the record
exactly when every entry of `flatLeaves` at `k` carries `pnull` —
vacuously so when no leaf of the record flattens to `k`. -/
def flatLeaves (d : PyDict) (parent_key sep : String) : List (String × PyVal) :=
  match d with
  | .nil => []
  | .cons key value rest =>
      let new_key := if parent_key = "" then key else parent_key ++ sep ++ key
      (match value with
       | .pdict sub => flatLeaves sub new_key sep
       | v => [(new_key, leafCell v)])
      ++ flatLeaves rest parent_key sep

/-! ## Key-set and null-default lemmas for `flatten` (claim C1) -/

theorem mem_pyKeys_pySet {α : Type} (d : List (String × α)) (k : String) (v : α) (a : String) :
    a ∈ pyKeys (pySet d k v) ↔ a = k ∨ a ∈ pyKeys d := by
  induction d with
  | nil => simp [pySet, pyKeys]
  | cons hd tl ih =>
    obtain ⟨k', v'⟩ := hd
    by_cases h : k' = k
    · subst h; simp [pySet, pyKeys]
    · simp [pySet, h, pyKeys] at ih ⊢
      tauto

theorem mem_pyKeys_pyUpdate {α : Type} (other items : List (String × α)) (a : String) :
    a ∈ pyKeys (pyUpdate items other) ↔ a ∈ pyKeys items ∨ a ∈ pyKeys other := by
  induction other generalizing items with
  | nil => simp [pyUpdate, pyKeys]
  | cons hd tl ih =>
    have h1 : pyUpdate items (hd :: tl) = pyUpdate (pySet items hd.1 hd.2) tl := rfl
    rw [h1, ih, mem_pyKeys_pySet]
    simp [pyKeys]
    tauto

theorem pyKeys_seedNull (fs : List String) : pyKeys (seedNull fs) = fs := by
  induction fs <;> simp_all [seedNull, pyKeys]

/-- `flatten`'s loop never removes a key from the accumulated dict. -/
theorem flattenAux_keys_mono (n : ℕ) : ∀ (d : PyDict), sizeOf d ≤ n →
    ∀ fs pk sep items a, a ∈ pyKeys items → a ∈ pyKeys (flattenAux d fs pk sep items) := by
  induction n with
  | zero =>
    intro d hd
    cases d <;> simp_all
  | succ n ih =>
    intro d hd fs pk sep items a ha
    cases d with
    | nil => simpa [flattenAux] using ha
    | cons key value rest =>
      have hrest : sizeOf rest ≤ n := by cases value <;> simp_all <;> omega
      cases value with
      | pdict sub =>
        simp only [flattenAux]
        apply ih rest hrest
        rw [mem_pyKeys_pyUpdate]
        exact Or.inl ha
      | _ =>
        simp only [flattenAux]
        apply ih rest hrest
        split_ifs
        all_goals
          first
            | (rw [mem_pyKeys_pySet]; exact Or.inr ha)
            | exact ha

/-- `flatten`'s loop only ever adds keys that belong to the schema. -/
theorem flattenAux_keys_bound (n : ℕ) : ∀ (d : PyDict), sizeOf d ≤ n →
    ∀ fs pk sep items a, a ∈ pyKeys (flattenAux d fs pk sep items) →
      a ∈ pyKeys items ∨ a ∈ fs := by
  induction n with
  | zero =>
    intro d hd
    cases d <;> simp_all
  | succ n ih =>
    intro d hd fs pk sep items a ha
    cases d with
    | nil => simp_all [flattenAux]
    | cons key value rest =>
      have hrest : sizeOf rest ≤ n := by cases value <;> simp_all <;> omega
      cases value with
      | pdict sub =>
        have hsub : sizeOf sub ≤ n := by simp_all; omega
        simp only [flattenAux] at ha
        rcases ih rest hrest _ _ _ _ _ ha with h | h
        · rw [mem_pyKeys_pyUpdate] at h
          rcases h with h | h
          · exact Or.inl h
          · rcases ih sub hsub _ _ _ _ _ h with h2 | h2
            · by_cases hnk : (if pk = "" then key else pk ++ sep ++ key) = ""
              · rw [if_pos hnk, pyKeys_seedNull] at h2; exact Or.inr h2
              · rw [if_neg hnk] at h2; simp [pyKeys] at h2
            · exact Or.inr h2
        · exact Or.inr h
      | _ =>
        simp only [flattenAux] at ha
        rcases ih rest hrest _ _ _ _ _ ha with h | h
        · split_ifs at h
          all_goals
            first
              | exact Or.inl h
              | (rw [mem_pyKeys_pySet] at h
                 rcases h with h | h
                 · subst h; simp_all
                 · exact Or.inl h)
        · exact Or.inr h

theorem lookup_isSome_iff {α : Type} (l : List (String × α)) (k : String) :
    (l.lookup k).isSome ↔ k ∈ pyKeys l := by
  induction l with
  | nil => simp [List.lookup, pyKeys]
  | cons hd tl ih =>
    obtain ⟨k', v'⟩ := hd
    by_cases h : k = k'
    · subst h; simp [List.lookup, pyKeys]
    · simp only [List.lookup, beq_eq_false_iff_ne.mpr h]
      simp [pyKeys, h, ih]

/-- Every entry of `pySet d k v` is an old entry of `d` or the new binding. -/
theorem mem_pySet {α : Type} (d : List (String × α)) (k : String) (v : α) (a : String) (b : α) :
    (a, b) ∈ pySet d k v → (a, b) ∈ d ∨ (a = k ∧ b = v) := by
  induction d with
  | nil =>
    simp [pySet]
  | cons hd tl ih =>
    obtain ⟨k', v'⟩ := hd
    by_cases h : k' = k
    · subst h
      simp only [pySet, if_pos rfl]
      intro hmem
      rcases List.mem_cons.mp hmem with h1 | h1
      · exact Or.inr (by simpa using h1)
      · exact Or.inl (List.mem_cons_of_mem _ h1)
    · simp only [pySet, if_neg h]
      intro hmem
      rcases List.mem_cons.mp hmem with h1 | h1
      · exact Or.inl (by simp [h1])
      · rcases ih h1 with h2 | h2
        · exact Or.inl (List.mem_cons_of_mem _ h2)
        · exact Or.inr h2

/-- `pySet` preserves "every binding at `k` is null" when the written value
is itself null whenever it lands on `k`. -/
theorem pySet_null {k : String} (d : List (String × PyVal)) (k' : String) (v : PyVal)
    (hd : ∀ v', (k, v') ∈ d → v' = PyVal.pnull)
    (hv : k = k' → v = PyVal.pnull) :
    ∀ v', (k, v') ∈ pySet d k' v → v' = PyVal.pnull := by
  intro v' hmem
  rcases mem_pySet _ _ _ _ _ hmem with h | ⟨he, hb⟩
  · exact hd v' h
  · exact hb.symm ▸ hv he

/-- `dict.update` preserves "every binding at `k` is null" when both
dictionaries satisfy it. -/
theorem pyUpdate_null {k : String} (other d : List (String × PyVal))
    (hd : ∀ v, (k, v) ∈ d → v = PyVal.pnull)
    (hother : ∀ v, (k, v) ∈ other → v = PyVal.pnull) :
    ∀ v, (k, v) ∈ pyUpdate d other → v = PyVal.pnull := by
  induction other generalizing d with
  | nil => exact fun v h => hd v h
  | cons hd0 tl ih =>
    obtain ⟨k', w⟩ := hd0
    have h1 : pyUpdate d ((k', w) :: tl) = pyUpdate (pySet d k' w) tl := rfl
    rw [h1]
    apply ih
    · exact pySet_null d k' w hd
        (fun he => hother w (by rw [he]; exact List.mem_cons_self _ _))
    · exact fun v hv => hother v (List.mem_cons_of_mem _ hv)

theorem lookup_mem {α : Type} (l : List (String × α)) (k : String) (v : α)
    (h : l.lookup k = some v) : (k, v) ∈ l := by
  induction l with
  | nil => simp [List.lookup] at h
  | cons hd tl ih =>
    obtain ⟨k', v'⟩ := hd
    by_cases he : k = k'
    · subst he
      simp [List.lookup] at h
      simp [h]
    · simp only [List.lookup, beq_eq_false_iff_ne.mpr he] at h
      exact List.mem_cons_of_mem _ (ih h)

theorem seedNull_null (fs : List String) (k : String) :
    ∀ v, (k, v) ∈ seedNull fs → v = PyVal.pnull := by
  intro v hv
  simp [seedNull] at hv
  tauto

/-- The null-default invariant of `flatten`'s loop: if every leaf of `d`
that flattens to path `k` carries null, and every binding at `k` in the
accumulator is null, then every binding at `k` in the result is null.
The two assignment forms of the loop body — the schema-guarded `pySet` at
a leaf and the `dict.update` with a recursively flattened sub-dict (seeded
all-null when the joined key is empty) — each preserve the invariant. -/
theorem flattenAux_null (n : ℕ) : ∀ (d : PyDict), sizeOf d ≤ n →
    ∀ fs pk sep items k,
    (∀ v, (k, v) ∈ flatLeaves d pk sep → v = PyVal.pnull) →
    (∀ v, (k, v) ∈ items → v = PyVal.pnull) →
    ∀ v, (k, v) ∈ flattenAux d fs pk sep items → v = PyVal.pnull := by
  induction n with
  | zero =>
    intro d hd
    cases d <;> simp_all
  | succ n ih =>
    intro d hd fs pk sep items k hleaves hitems v hv
    cases d with
    | nil =>
      simp only [flattenAux] at hv
      exact hitems v hv
    | cons key value rest =>
      have hrest : sizeOf rest ≤ n := by cases value <;> simp_all <;> omega
      cases value with
      | pdict sub =>
        have hsub : sizeOf sub ≤ n := by simp_all; omega
        simp only [flattenAux] at hv
        refine ih rest hrest fs pk sep _ k ?_ ?_ v hv
        · intro v' h'
          apply hleaves
          simp only [flatLeaves]
          exact List.mem_append_right _ h'
        · apply pyUpdate_null _ _ hitems
          refine ih sub hsub fs _ sep _ k ?_ ?_
          · intro v' h'
            apply hleaves
            simp only [flatLeaves]
            exact List.mem_append_left _ h'
          · intro v' h'
            by_cases hnk : (if pk = "" then key else pk ++ sep ++ key) = ""
            · rw [if_pos hnk] at h'
              exact seedNull_null fs k v' h'
            · rw [if_neg hnk] at h'
              simp at h'
      | _ =>
        simp only [flattenAux] at hv
        refine ih rest hrest fs pk sep _ k ?_ ?_ v hv
        · intro v' h'
          apply hleaves
          simp only [flatLeaves]
          exact List.mem_append_right _ h'
        · intro v' h'
          by_cases hmem : (if pk = "" then key else pk ++ sep ++ key) ∈ fs
          · rw [if_pos hmem] at h'
            refine pySet_null items _ _ hitems ?_ v' h'
            intro he
            apply hleaves
            simp only [flatLeaves]
            apply List.mem_append_left
            rw [he]
            exact List.mem_singleton_self _
          · rw [if_neg hmem] at h'
            exact hitems v' h'

/-- **C1.** For every raw record and every flattened schema, `flatten`
returns a mapping whose key set is exactly the schema's key set (a key
occurs in the output exactly when it occurs in the schema, so every record
leaf whose flattened path is not a schema key is silently dropped), and
every schema key absent from (or null in) the record — every leaf of the
record flattening to that path, if any, carries null — maps to the value
null rather than being omitted. -/
theorem flatten_key_set_and_null_default (dictionary : PyDict) (flat_schema : List String) :
    (∀ k, k ∈ pyKeys (flatten dictionary flat_schema) ↔ k ∈ flat_schema)
    ∧ (∀ k, k ∈ flat_schema →
        (∀ v, (k, v) ∈ flatLeaves dictionary "" "__" → v = PyVal.pnull) →
        (flatten dictionary flat_schema).lookup k = some PyVal.pnull) := by
  constructor
  · intro k
    constructor
    · intro h
      rcases flattenAux_keys_bound (sizeOf dictionary) dictionary le_rfl _ _ _ _ _ h with h | h
      · rwa [pyKeys_seedNull] at h
      · exact h
    · intro h
      apply flattenAux_keys_mono (sizeOf dictionary) dictionary le_rfl
      rwa [pyKeys_seedNull]
  · intro k hk hnull
    have hmemk : k ∈ pyKeys (flatten dictionary flat_schema) := by
      apply flattenAux_keys_mono (sizeOf dictionary) dictionary le_rfl
      rwa [pyKeys_seedNull]
    have hsome : ((flatten dictionary flat_schema).lookup k).isSome :=
      (lookup_isSome_iff _ _).mpr hmemk
    obtain ⟨v, hv⟩ := Option.isSome_iff_exists.mp hsome
    have hvm := lookup_mem _ _ _ hv
    have hvnull := flattenAux_null (sizeOf dictionary) dictionary le_rfl flat_schema "" "__"
      (seedNull flat_schema) k hnull (seedNull_null flat_schema k) v hvm
    rw [hv, hvnull]

/-- A concrete record with a nested dict, an explicit null leaf, and an
extra leaf not in the schema. -/
def c1DemoRecord : PyDict :=
  .cons "key_1" (.pint 1)
    (.cons "key_2" (.pdict (.cons "key_3" (.pint 2) .nil))
      (.cons "extra_leaf" (.pint 5)
        (.cons "key_9" .pnull .nil)))

/-- The schema the C1 witness flattens `c1DemoRecord` against. -/
def c1DemoSchema : List String := ["key_1", "key_2__key_3", "key_7", "key_9"]

/-- Witness for C1 at a concrete input: the schema key `key_7` (absent from
the record) is present in the output and maps to null, the schema key
`key_9` (explicitly null in the record) also maps to null, and the record
leaf `extra_leaf` (absent from the schema) is dropped. -/
theorem flatten_key_set_witness :
    ("key_7" ∈ pyKeys (flatten c1DemoRecord c1DemoSchema))
    ∧ ¬ ("extra_leaf" ∈ pyKeys (flatten c1DemoRecord c1DemoSchema))
    ∧ (flatten c1DemoRecord c1DemoSchema).lookup "key_7" = some PyVal.pnull
    ∧ (flatten c1DemoRecord c1DemoSchema).lookup "key_9" = some PyVal.pnull := by
  have hfl : flatLeaves c1DemoRecord "" "__"
      = [("key_1", PyVal.pint 1), ("key_2__key_3", PyVal.pint 2),
         ("extra_leaf", PyVal.pint 5), ("key_9", PyVal.pnull)] := by
    simp [flatLeaves, c1DemoRecord, leafCell]
  refine ⟨?_, ?_, ?_, ?_⟩
  · exact ((flatten_key_set_and_null_default _ _).1 "key_7").mpr (by decide)
  · intro h
    have := ((flatten_key_set_and_null_default _ _).1 "extra_leaf").mp h
    simp [c1DemoSchema] at this
  · refine (flatten_key_set_and_null_default _ _).2 "key_7" (by decide) ?_
    intro v hv
    rw [hfl] at hv
    simp at hv
  · refine (flatten_key_set_and_null_default _ _).2 "key_9" (by decide) ?_
    intro v hv
    rw [hfl] at hv
    simp at hv
    exact hv

/-- **C5.** Evaluation of `flatten` at a list-valued leaf whose path is a
schema key: the code stores `str(value)` — the host language's native repr
(single-quoted strings, `True`/`None` literals) — not the stable canonical
JSON form with double-quoted strings and `true`/`false`/`null` literals
that the claim (and the repository's own tests `test_flatten` and
`test_flatten_array_fields`) require. -/
theorem flatten_list_native_repr :
    flatten (.cons "key_6" (.plist (.cons (.pstr "10") (.cons (.pstr "11") .nil))) .nil) ["key_6"]
      = [("key_6", .pstr "['10', '11']")]
    ∧ jsonDumps (.plist (.cons (.pstr "10") (.cons (.pstr "11") .nil))) = "[\"10\", \"11\"]"
    ∧ pyRepr (.plist (.cons (.pbool true) (.cons .pnull .nil))) = "[True, None]"
    ∧ jsonDumps (.plist (.cons (.pbool true) (.cons .pnull .nil))) = "[true, null]" := by
  refine ⟨?_, ?_, ?_, ?_⟩
  · simp only [flatten, flattenAux, seedNull, leafCell, pySet, pyRepr, pyReprList, pyStrRepr,
      pyStrEscape]
    simp
    decide
  · simp only [jsonDumps, jsonDumpsList, jsonStrLit]
    decide
  · simp only [pyRepr, pyReprList]
    decide
  · simp only [jsonDumps, jsonDumpsList]
    decide

/-! ## Errors raised by the target -/

inductive TargetError where
  | valueError (msg : String)
  | notImplementedError (msg : String)
  | unsupportedCompressionMethod (msg : String)
  | assertionError (msg : String)
deriving DecidableEq

instance {s a : Type} [DecidableEq s] [DecidableEq a] : DecidableEq (Except s a)
  | .ok x, .ok y => decidable_of_iff (x = y) (by simp)
  | .error x, .error y => decidable_of_iff (x = y) (by simp)
  | .ok _, .error _ => isFalse (by simp)
  | .error _, .ok _ => isFalse (by simp)

/-! ## Python `str.upper` / `str.lower` (ASCII, which covers every type tag
and codec name used by the target) -/

def strToUpper (s : String) : String := String.mk (s.toList.map Char.toUpper)

def strToLower (s : String) : String := String.mk (s.toList.map Char.toLower)

/-! ## Type mapper (claim C6)

Two variants exist in the sources: `helpers._field_type_to_pyarrow_field`
(helpers.py lines 108-131) and
`utils/parquet._field_type_to_pyarrow_field` (parquet.py lines 28-50). -/

/-- A pyarrow physical column type, restricted to the ones the target maps to. -/
inductive PAType where
  | paBool | paString | paInt64 | paFloat64
deriving DecidableEq

/-- `pa.field(field_name, pyarrow_type, nullable)`. -/
structure PAField where
  name : String
  type : PAType
  nullable : Bool
deriving DecidableEq

/-- A JSON-schema `type` entry: either a single string tag or a list of tags. -/
inductive TypeSpec where
  | single (t : String)
  | multi (ts : List String)
deriving DecidableEq

/-- helpers.py: `input_types = input_types or []` followed by
`[input_types] if isinstance(input_types, str) else input_types`:
`None` and `""` normalize to `[]`, a non-empty string to a singleton. -/
def normalizeTypes : Option TypeSpec → List String
  | none => []
  | some (.single s) => if s = "" then [] else [s]
  | some (.multi ts) => ts

/-- `{item.upper() for item in input_types}` — a Python set, modelled as the
upper-cased list with duplicates removed.  Python's set iteration order is
implementation-defined (string hashing is randomized per process), so
`list(types_uppercase)[0]` is only deterministic when at most one tag
remains; every theorem below exercises only such inputs. -/
def typesUppercase (ts : List String) : List String := (ts.map strToUpper).dedup

/-- helpers.py `FIELD_TYPE_TO_PYARROW`: no OBJECT entry; `""` maps to string. -/
def FIELD_TYPE_TO_PYARROW : List (String × PAType) :=
  [("BOOLEAN", .paBool), ("STRING", .paString), ("ARRAY", .paString), ("", .paString),
   ("INTEGER", .paInt64), ("NUMBER", .paFloat64)]

def PyList.ofStrings : List String → PyList
  | [] => .nil
  | s :: rest => .cons (.pstr s) (PyList.ofStrings rest)

/-- The NotImplementedError f-string of helpers.py, which interpolates the
(normalized) type list and the field name. -/
def notImplementedMsg (field_name : String) (shownTypes : List String) : String :=
  "Data types \"" ++ pyRepr (.plist (PyList.ofStrings shownTypes)) ++ "\" for field "
    ++ field_name ++ " is not yet supported."

/-- helpers.py `_field_type_to_pyarrow_field`: nullability is the presence of
NULL in the upper-cased set; the remaining tag (or `""`) is looked up in
`FIELD_TYPE_TO_PYARROW` with `.get(input_type, None)`, and a missing entry
raises NotImplementedError naming the field and the types. -/
def fieldTypeToPyarrowField (field_name : String) (input_types : Option TypeSpec) :
    Except TargetError PAField :=
  let ts := normalizeTypes input_types
  let tu := typesUppercase ts
  let nullable := decide ("NULL" ∈ tu)
  let rest := tu.filter (fun t => t ≠ "NULL")
  let input_type := (rest.head?).getD ""
  match FIELD_TYPE_TO_PYARROW.lookup input_type with
  | some pt => .ok ⟨field_name, pt, nullable⟩
  | none => .error (.notImplementedError (notImplementedMsg field_name ts))

/-- utils/parquet.py input: the JSON-schema fragment's `type` and `anyOf`. -/
structure ParquetTypeInput where
  type : Option TypeSpec
  anyOf : List (Option TypeSpec)

/-- The `anyOf` fallback loop of utils/parquet.py: for each variant, a truthy
`type` is appended (a list extends, a non-empty string appends). -/
def anyOfCollect : List (Option TypeSpec) → List String
  | [] => []
  | none :: rest => anyOfCollect rest
  | some (.single s) :: rest => (if s = "" then [] else [s]) ++ anyOfCollect rest
  | some (.multi ts) :: rest => ts ++ anyOfCollect rest

/-- `input_types.get("type", [])`, falling back to the anyOf collection when
falsy, then wrapping a string in a singleton list.  (A falsy string `""`
together with a non-empty `anyOf` would crash Python on `types.extend`; that
corner is not exercised by any theorem.) -/
def parquetTypes (inp : ParquetTypeInput) : List String :=
  match inp.type with
  | some (.single s) => if s = "" then anyOfCollect inp.anyOf else [s]
  | some (.multi ts) => if ts = [] then anyOfCollect inp.anyOf else ts
  | none => anyOfCollect inp.anyOf

/-- utils/parquet.py `FIELD_TYPE_TO_PYARROW`: has OBJECT, no `""` entry. -/
def PARQUET_FIELD_TYPE_TO_PYARROW : List (String × PAType) :=
  [("BOOLEAN", .paBool), ("STRING", .paString), ("ARRAY", .paString),
   ("INTEGER", .paInt64), ("NUMBER", .paFloat64), ("OBJECT", .paString)]

/-- utils/parquet.py `_field_type_to_pyarrow_field`: the lookup is
`FIELD_TYPE_TO_PYARROW.get(input_type, pa.string())` — it defaults to
string, and the subsequent `if not pyarrow_type: raise NotImplementedError`
can never fire because pyarrow DataType objects are always truthy, so this
variant never raises. -/
def parquetFieldTypeToPyarrowField (field_name : String) (inp : ParquetTypeInput) : PAField :=
  let tu := typesUppercase (parquetTypes inp)
  let nullable := decide ("NULL" ∈ tu)
  let rest := tu.filter (fun t => t ≠ "NULL")
  let input_type := (rest.head?).getD ""
  ⟨field_name, (PARQUET_FIELD_TYPE_TO_PYARROW.lookup input_type).getD .paString, nullable⟩

theorem lookup_eq_none_of_not_mem {α : Type} (l : List (String × α)) (k : String)
    (h : k ∉ pyKeys l) : l.lookup k = none := by
  have := (lookup_isSome_iff l k).not.mpr h
  cases hl : l.lookup k
  · rfl
  · rw [hl] at this; simp at this

/-- helpers variant on a single tag whose upper-casing is outside its fixed
table (and is not NULL): the NotImplementedError is raised, naming the field
and the offending type. -/
theorem fieldTypeToPyarrowField_unknown (name t : String)
    (h1 : strToUpper t ∉ pyKeys FIELD_TYPE_TO_PYARROW) (h2 : strToUpper t ≠ "NULL") :
    fieldTypeToPyarrowField name (some (.single t))
      = .error (.notImplementedError (notImplementedMsg name [t])) := by
  have ht : t ≠ "" := by
    intro h
    subst h
    exact h1 (by decide)
  have hfix : typesUppercase [t] = [strToUpper t] := by simp [typesUppercase]
  have hl : FIELD_TYPE_TO_PYARROW.lookup (strToUpper t) = none :=
    lookup_eq_none_of_not_mem _ _ h1
  simp [fieldTypeToPyarrowField, normalizeTypes, if_neg ht, hfix, h2, hl]

/-- parquet variant on a single tag outside its table (and not NULL): the
result silently defaults to string — no error. -/
theorem parquetFieldTypeToPyarrowField_unknown (name t : String)
    (h1 : strToUpper t ∉ pyKeys PARQUET_FIELD_TYPE_TO_PYARROW) (h2 : strToUpper t ≠ "NULL") :
    parquetFieldTypeToPyarrowField name ⟨some (.single t), []⟩ = ⟨name, .paString, false⟩ := by
  by_cases ht : t = ""
  · subst ht; rfl
  · have hfix : typesUppercase [t] = [strToUpper t] := by simp [typesUppercase]
    have hl : PARQUET_FIELD_TYPE_TO_PYARROW.lookup (strToUpper t) = none :=
      lookup_eq_none_of_not_mem _ _ h1
    simp only [parquetFieldTypeToPyarrowField, parquetTypes, if_neg ht, hfix]
    simp [Ne.symm h2, h2, hl]

/-- **C6 counterexample.** The claim as stated is false on both variants: the
helpers variant raises on OBJECT (its table has no OBJECT row), and the
parquet variant maps the out-of-table tag "datetime" silently to string
instead of raising. -/
theorem field_type_mapper_counterexample :
    fieldTypeToPyarrowField "x" (some (.single "object"))
      = .error (.notImplementedError "Data types \"['object']\" for field x is not yet supported.")
    ∧ parquetFieldTypeToPyarrowField "x" ⟨some (.single "datetime"), []⟩
      = ⟨"x", .paString, false⟩ := by
  constructor
  · have h : notImplementedMsg "x" ["object"]
        = "Data types \"['object']\" for field x is not yet supported." := by
      simp only [notImplementedMsg, PyList.ofStrings, pyRepr, pyReprList, pyStrRepr, pyStrEscape]
      decide
    rw [← h]
    rfl
  · rfl

/-- **C6 (amended).** Nullability is the presence of NULL in the upper-cased
set in both variants.  The helpers variant maps BOOLEAN→bool,
STRING/ARRAY/""→string, INTEGER→int64, NUMBER→float64 (case-insensitively,
absent types defaulting to string) and raises the unsupported-type error —
naming the field and the offending type — for every other tag *including
OBJECT*, which is missing from its table.  The parquet variant additionally
maps OBJECT→string but never raises: every tag outside its table silently
defaults to string. -/
theorem field_type_mapper_amended :
    (∀ name : String,
      fieldTypeToPyarrowField name (some (.multi ["boolean"])) = .ok ⟨name, .paBool, false⟩
      ∧ fieldTypeToPyarrowField name (some (.multi ["null", "boolean"])) = .ok ⟨name, .paBool, true⟩
      ∧ fieldTypeToPyarrowField name (some (.single "string")) = .ok ⟨name, .paString, false⟩
      ∧ fieldTypeToPyarrowField name (some (.multi ["null", "array"])) = .ok ⟨name, .paString, true⟩
      ∧ fieldTypeToPyarrowField name (some (.multi ["null", "integer"])) = .ok ⟨name, .paInt64, true⟩
      ∧ fieldTypeToPyarrowField name (some (.multi ["number"])) = .ok ⟨name, .paFloat64, false⟩
      ∧ fieldTypeToPyarrowField name none = .ok ⟨name, .paString, false⟩
      ∧ fieldTypeToPyarrowField name (some (.multi ["null"])) = .ok ⟨name, .paString, true⟩
      ∧ fieldTypeToPyarrowField name (some (.single "Integer")) = .ok ⟨name, .paInt64, false⟩
      ∧ fieldTypeToPyarrowField name (some (.single "object"))
          = .error (.notImplementedError (notImplementedMsg name ["object"])))
    ∧ (∀ name t : String, strToUpper t ∉ pyKeys FIELD_TYPE_TO_PYARROW → strToUpper t ≠ "NULL" →
        fieldTypeToPyarrowField name (some (.single t))
          = .error (.notImplementedError (notImplementedMsg name [t])))
    ∧ (∀ name : String,
        parquetFieldTypeToPyarrowField name ⟨some (.single "object"), []⟩ = ⟨name, .paString, false⟩
        ∧ parquetFieldTypeToPyarrowField name ⟨some (.multi ["null", "object"]), []⟩
            = ⟨name, .paString, true⟩)
    ∧ (∀ name t : String, strToUpper t ∉ pyKeys PARQUET_FIELD_TYPE_TO_PYARROW →
        strToUpper t ≠ "NULL" →
        parquetFieldTypeToPyarrowField name ⟨some (.single t), []⟩ = ⟨name, .paString, false⟩) :=
  ⟨fun _ => ⟨rfl, rfl, rfl, rfl, rfl, rfl, rfl, rfl, rfl, rfl⟩,
   fieldTypeToPyarrowField_unknown,
   fun _ => ⟨rfl, rfl⟩,
   parquetFieldTypeToPyarrowField_unknown⟩

/-- Witness for the amended C6 at concrete inputs. -/
theorem field_type_mapper_amended_witness :
    fieldTypeToPyarrowField "f" (some (.single "datetime"))
        = .error (.notImplementedError (notImplementedMsg "f" ["datetime"]))
    ∧ parquetFieldTypeToPyarrowField "f" ⟨some (.single "datetime"), []⟩
        = ⟨"f", .paString, false⟩ := by
  constructor
  · exact field_type_mapper_amended.2.1 "f" "datetime" (by decide) (by decide)
  · exact field_type_mapper_amended.2.2.2 "f" "datetime" (by decide) (by decide)

/-! ## Compression extension (claim C7) — `__init__.py` lines 27-33, 63-68 -/

/-- `EXTENSION_MAPPING` of `__init__.py`: note there is no NONE entry. -/
def EXTENSION_MAPPING : List (String × String) :=
  [("SNAPPY", ".snappy"), ("GZIP", ".gz"), ("BROTLI", ".br"), ("ZSTD", ".zstd"), ("LZ4", ".lz4")]

/-- `TargetConfig.set_compression_extension`: a falsy compression method
(`None` or `""`) keeps the dataclass default extension `""`; otherwise the
upper-cased method is looked up in `EXTENSION_MAPPING` and a missing entry
raises UnsupportedCompressionMethod at configuration construction. -/
def setCompressionExtension (compression_method : Option String) : Except TargetError String :=
  match compression_method with
  | none => .ok ""
  | some cm =>
      if cm = "" then .ok ""
      else
        match EXTENSION_MAPPING.lookup (strToUpper cm) with
        | some ext => .ok ext
        | none => .error (.unsupportedCompressionMethod "Unsupported compression method.")

/-- **C7 counterexample.** The claim includes "none" in the supported codec
set, but the string "none" is truthy, "NONE" has no entry in
`EXTENSION_MAPPING`, and configuration construction raises. -/
theorem compression_none_counterexample :
    setCompressionExtension (some "none")
      = .error (.unsupportedCompressionMethod "Unsupported compression method.") := rfl

/-- **C7 (amended).** Configuration construction succeeds exactly for the
codecs {snappy, gzip, brotli, zstd, lz4} (case-insensitively), each mapped
to its canonical extension token, and for an absent or empty compression
method (which keeps the empty extension); every other codec name —
including the literal "none" — raises the fatal error at startup. -/
theorem compression_extension_amended :
    (∀ s : String, (∃ e, setCompressionExtension (some s) = .ok e)
        ↔ (s = "" ∨ strToUpper s ∈ pyKeys EXTENSION_MAPPING))
    ∧ setCompressionExtension (some "Snappy") = .ok ".snappy"
    ∧ setCompressionExtension (some "gzip") = .ok ".gz"
    ∧ setCompressionExtension (some "BROTLI") = .ok ".br"
    ∧ setCompressionExtension (some "zstd") = .ok ".zstd"
    ∧ setCompressionExtension (some "lz4") = .ok ".lz4"
    ∧ setCompressionExtension none = .ok "" := by
  refine ⟨?_, by decide, by decide, by decide, by decide, by decide, rfl⟩
  intro s
  by_cases hs : s = ""
  · subst hs; simp [setCompressionExtension]
  · constructor
    · rintro ⟨e, he⟩
      right
      rw [← lookup_isSome_iff]
      simp only [setCompressionExtension, if_neg hs] at he
      cases hl : EXTENSION_MAPPING.lookup (strToUpper s)
      · rw [hl] at he; simp at he
      · simp
    · rintro (h | h)
      · exact absurd h hs
      · rw [← lookup_isSome_iff] at h
        simp only [setCompressionExtension, if_neg hs]
        cases hl : EXTENSION_MAPPING.lookup (strToUpper s)
        · rw [hl] at h; simp at h
        · exact ⟨_, rfl⟩

/-- Witness for the amended C7: projections of the theorem at concrete codecs. -/
theorem compression_extension_amended_witness :
    setCompressionExtension (some "Snappy") = .ok ".snappy"
    ∧ setCompressionExtension none = .ok "" :=
  ⟨compression_extension_amended.2.1, compression_extension_amended.2.2.2.2.2.2⟩

/-! ## Size-string parsing (claim C10) — `utils/__init__.py` lines 8-26 -/

/-- Python `int` on a run of decimal digits. -/
def digitsToNat (cs : List Char) : Nat :=
  cs.foldl (fun acc c => acc * 10 + (c.toNat - 48)) 0

/-- `utils.convert_size_to_bytes`: `re.match(r"(\d+)([KkMmGg]?)", size_str)`
fails only when no leading digit is present ("Invalid size string"); the
optional unit group captures one of KkMmGg if it immediately follows the
digits, else the empty string; an empty unit falls through the k/m/g
branches to `raise ValueError(f"Invalid unit: {unit}")`.  (Python's `\d`
also matches non-ASCII decimal digits; all inputs of interest are ASCII.) -/
def convert_size_to_bytes (size_str : String) : Except TargetError Nat :=
  let cs := size_str.toList
  let digits := cs.takeWhile Char.isDigit
  if digits.isEmpty then .error (.valueError ("Invalid size string: " ++ size_str))
  else
    let value := digitsToNat digits
    let unit : String :=
      match cs.drop digits.length with
      | c :: _ => if c ∈ ['K', 'k', 'M', 'm', 'G', 'g'] then String.singleton c else ""
      | [] => ""
    if strToLower unit = "k" then .ok (value * 1024)
    else if strToLower unit = "m" then .ok (value * 1024 * 1024)
    else if strToLower unit = "g" then .ok (value * 1024 * 1024 * 1024)
    else .error (.valueError ("Invalid unit: " ++ unit))

/-- **C10.** Every non-empty all-digit size string (the typical output of
the `hdfs getconf -confKey dfs.blocksize` query, e.g. "134217728") raises
`ValueError("Invalid unit: ")` instead of returning the byte count; and
every successful parse has an explicit K/M/G unit character (in either
case) right after the digit prefix — so the block-size query path fails
whenever the store reports its block size as a plain number of bytes. -/
theorem convert_size_plain_bytes_fails :
    (∀ s : String, s.toList ≠ [] → (∀ c ∈ s.toList, c.isDigit) →
        convert_size_to_bytes s = .error (.valueError "Invalid unit: "))
    ∧ (∀ s : String, ∀ v : Nat, convert_size_to_bytes s = .ok v →
        (s.toList.takeWhile Char.isDigit ≠ [] ∧
          ∃ c, (s.toList.drop (s.toList.takeWhile Char.isDigit).length).head? = some c
            ∧ c ∈ ['K', 'k', 'M', 'm', 'G', 'g'])) := by
  constructor
  · intro s hne hdig
    have htw : s.toList.takeWhile Char.isDigit = s.toList := by
      rw [List.takeWhile_eq_self_iff]
      intro c hc
      exact hdig c hc
    simp only [convert_size_to_bytes, htw]
    rw [if_neg (by simpa using hne)]
    rw [List.drop_length]
    simp [strToLower]
  · intro s v hok
    simp only [convert_size_to_bytes] at hok
    by_cases h1 : (s.toList.takeWhile Char.isDigit).isEmpty
    · rw [if_pos h1] at hok
      exact absurd hok (by simp)
    · rw [if_neg h1] at hok
      refine ⟨by simpa using h1, ?_⟩
      cases hd : s.toList.drop (s.toList.takeWhile Char.isDigit).length with
      | nil =>
        rw [hd] at hok
        simp [strToLower] at hok
      | cons c rest =>
        rw [hd] at hok
        by_cases hc : c ∈ ['K', 'k', 'M', 'm', 'G', 'g']
        · exact ⟨c, by simp [hd], hc⟩
        · simp [hc, strToLower] at hok

/-- Witness for C10 at a plain byte count of 128 MiB, plus the successful
parse of the same size written with an explicit unit. -/
theorem convert_size_plain_bytes_fails_witness :
    convert_size_to_bytes "134217728" = .error (.valueError "Invalid unit: ")
    ∧ convert_size_to_bytes "128m" = .ok 134217728 := by
  constructor
  · exact convert_size_plain_bytes_fails.1 "134217728" (by decide) (by decide)
  · decide

/-! ## Schema flattener — `helpers.flatten_schema` (helpers.py lines 59-105) -/

mutual
/-- A declared JSON schema node: its `type` entry (if any) and its
`properties` map (if any).  Other JSON-schema keys (`items`, `format`,
`anyOf`…) are ignored by `flatten_schema`. -/
inductive SchemaNode where
  | mk (type : Option TypeSpec) (properties : Option SchemaProps)
inductive SchemaProps where
  | nil
  | cons (k : String) (v : SchemaNode) (rest : SchemaProps)
end

def charsStartWith : List Char → List Char → Bool
  | [], _ => true
  | _ :: _, [] => false
  | n :: ns, h :: hs => n == h && charsStartWith ns hs

/-- Substring containment on character lists (Python `needle in haystack`). -/
def charsContain (needle : List Char) : List Char → Bool
  | [] => needle.isEmpty
  | h :: hs => charsStartWith needle (h :: hs) || charsContain needle hs

/-- Python `"object" in value.get("type", [])`: list membership when the
type entry is a list, *substring* containment when it is a single string. -/
def typeHasObject : Option TypeSpec → Bool
  | none => false
  | some (.single s) => charsContain "object".toList s.toList
  | some (.multi ts) => ts.contains "object"

/-- The loop of `helpers.flatten_schema`: object-typed nodes are recursed
into (their `properties`, possibly absent), other nodes record
`new_key ↦ value.get("type", None)`. -/
def flattenSchemaAux (d : Option SchemaProps) (parent_key sep : String)
    (items : List (String × Option TypeSpec)) : List (String × Option TypeSpec) :=
  match d with
  | none => items
  | some .nil => items
  | some (.cons key node rest) =>
      match node with
      | .mk ty props =>
          let new_key := if parent_key = "" then key else parent_key ++ sep ++ key
          let items' :=
            if typeHasObject ty then pyUpdate items (flattenSchemaAux props new_key sep [])
            else pySet items new_key ty
          flattenSchemaAux (some rest) parent_key sep items'

/-- `helpers.flatten_schema(properties)` with defaults. -/
def flatten_schema (properties : Option SchemaProps) : List (String × Option TypeSpec) :=
  flattenSchemaAux properties "" "__" []

/-! ## Producer (claims C2, C4) — `persist_messages.producer`,
`__init__.py` lines 108-150

Messages are modelled post-parse (`singer.parse_message` is an external
library; a malformed line raises ParseError before reaching the logic
below).  The `Draft4Validator` record validation is likewise external and
modelled as accepting — a validation failure aborts the whole run, which
lies outside the claims proved here. -/

inductive Message where
  | record (stream : String) (rec : PyDict)
  | state (value : PyVal)
  | schema (stream : String) (properties : Option SchemaProps) (key_properties : List String)
  | unknown

/-- A work item put on the producer→consumer queue. -/
inductive QueueItem where
  | record (stream : String) (flat : FlatRecord)
  | schema (stream : String) (flatSchema : List (String × Option TypeSpec))
  | eof

/-- Producer-local state: the `schemas` and `key_properties` dicts, the
`state` checkpoint variable, and the sequence of queue puts so far. -/
structure ProducerState where
  schemas : List (String × List (String × Option TypeSpec))
  keyProperties : List (String × List String)
  state : Option PyVal
  queue : List QueueItem

/-- The f-string of the sequencing ValueError; it names the stream. -/
def recordBeforeSchemaMsg (stream : String) : String :=
  "A record for stream " ++ stream ++ " was encountered before a corresponding schema"

def initialProducerState : ProducerState := ⟨[], [], none, []⟩

/-- One iteration of the producer loop over a parsed message. -/
def producerStep (ps : ProducerState) : Message → Except TargetError ProducerState
  | .record stream rec =>
      match ps.schemas.lookup stream with
      | none => .error (.valueError (recordBeforeSchemaMsg stream))
      | some fs =>
          let flat := flatten rec (pyKeys fs)
          .ok { ps with queue := ps.queue ++ [.record stream flat], state := none }
  | .state v => .ok { ps with state := some v }
  | .schema stream props keyProps =>
      let fs := flatten_schema props
      .ok { schemas := pySet ps.schemas stream fs,
            keyProperties := pySet ps.keyProperties stream keyProps,
            state := ps.state,
            queue := ps.queue ++ [.schema stream fs] }
  | .unknown => .ok ps

/-- The producer loop: an exception aborts the run (the EOF sentinel is
still enqueued on both paths before `persist_messages` returns). -/
def producerRun (ps : ProducerState) : List Message → Except TargetError ProducerState
  | [] => .ok ps
  | m :: rest =>
      match producerStep ps m with
      | .error e => .error e
      | .ok ps' => producerRun ps' rest

/-- The value `persist_messages` returns to its caller at normal
end-of-stream: the producer's final `state` variable. -/
def persistMessagesResult (msgs : List Message) : Except TargetError (Option PyVal) :=
  (producerRun initialProducerState msgs).map (fun ps => ps.state)

theorem producerRun_append (l1 l2 : List Message) (ps : ProducerState) :
    producerRun ps (l1 ++ l2)
      = match producerRun ps l1 with
        | .error e => .error e
        | .ok ps' => producerRun ps' l2 := by
  induction l1 generalizing ps with
  | nil => simp [producerRun]
  | cons m rest ih =>
    simp only [List.cons_append, producerRun]
    cases producerStep ps m
    · rfl
    · exact ih _

/-- **C2.** At normal end-of-stream the returned checkpoint is the last
StateMessage observed after every preceding RecordMessage: a trailing
`[..., state v, record, state w]` returns `w`, and a trailing
`[..., state v, record]` with no further StateMessage returns none (the
record resets the pending checkpoint). -/
theorem persist_messages_checkpoint (pre : List Message) (v w : PyVal) (s : String) (r : PyDict) :
    (∀ out, persistMessagesResult (pre ++ [.state v, .record s r, .state w]) = .ok out →
      out = some w)
    ∧ (∀ out, persistMessagesResult (pre ++ [.state v, .record s r]) = .ok out → out = none) := by
  constructor
  · intro out hout
    simp only [persistMessagesResult, producerRun_append] at hout
    cases hpre : producerRun initialProducerState pre with
    | error e => rw [hpre] at hout; simp [Except.map] at hout
    | ok ps =>
      rw [hpre] at hout
      simp only [producerRun, producerStep] at hout
      cases hl : ps.schemas.lookup s with
      | none => rw [hl] at hout; simp [Except.map] at hout
      | some fs =>
        rw [hl] at hout
        simp only [producerRun, producerStep, Except.map] at hout
        exact (Except.ok.inj hout).symm
  · intro out hout
    simp only [persistMessagesResult, producerRun_append] at hout
    cases hpre : producerRun initialProducerState pre with
    | error e => rw [hpre] at hout; simp [Except.map] at hout
    | ok ps =>
      rw [hpre] at hout
      simp only [producerRun, producerStep] at hout
      cases hl : ps.schemas.lookup s with
      | none => rw [hl] at hout; simp [Except.map] at hout
      | some fs =>
        rw [hl] at hout
        simp only [producerRun, producerStep, Except.map] at hout
        exact (Except.ok.inj hout).symm

def c2DemoProps : Option SchemaProps :=
  some (.cons "a" (.mk (some (.multi ["null", "integer"])) none) .nil)

/-- Witness for C2 on a concrete message sequence (checkpoint values 1, 2). -/
theorem persist_messages_checkpoint_witness :
    persistMessagesResult
        [.schema "s" c2DemoProps ["a"], .state (.pint 1),
         .record "s" (.cons "a" (.pint 7) .nil), .state (.pint 2)]
      = .ok (some (.pint 2))
    ∧ persistMessagesResult
        [.schema "s" c2DemoProps ["a"], .state (.pint 1),
         .record "s" (.cons "a" (.pint 7) .nil)]
      = .ok none := by
  have he1 : persistMessagesResult
      [.schema "s" c2DemoProps ["a"], .state (.pint 1),
       .record "s" (.cons "a" (.pint 7) .nil), .state (.pint 2)]
      = .ok (some (.pint 2)) := rfl
  have he2 : persistMessagesResult
      [.schema "s" c2DemoProps ["a"], .state (.pint 1),
       .record "s" (.cons "a" (.pint 7) .nil)]
      = .ok none := rfl
  refine ⟨?_, ?_⟩
  · have hpin := (persist_messages_checkpoint [.schema "s" c2DemoProps ["a"]]
      (.pint 1) (.pint 2) "s" (.cons "a" (.pint 7) .nil)).1 _ he1
    exact he1
  · have hpin := (persist_messages_checkpoint [.schema "s" c2DemoProps ["a"]]
      (.pint 1) (.pint 2) "s" (.cons "a" (.pint 7) .nil)).2 _ he2
    exact he2

theorem lookup_pySet_ne {α : Type} (d : List (String × α)) (k' : String) (v : α) (k : String)
    (h : k ≠ k') : (pySet d k' v).lookup k = d.lookup k := by
  induction d with
  | nil => simp [pySet, List.lookup, beq_eq_false_iff_ne.mpr h]
  | cons hd tl ih =>
    obtain ⟨k0, v0⟩ := hd
    by_cases h0 : k0 = k'
    · subst h0
      simp [pySet, List.lookup, beq_eq_false_iff_ne.mpr h]
    · simp only [pySet, if_neg h0, List.lookup]
      cases hbeq : k == k0
      · exact ih
      · rfl

/-- If no SchemaMessage for stream `X` appears in `msgs`, a successful run
leaves `X` absent from the producer's `schemas` dict. -/
theorem producerRun_lookup_none (msgs : List Message) (X : String) :
    ∀ (ps ps' : ProducerState), producerRun ps msgs = .ok ps' →
      ps.schemas.lookup X = none →
      (∀ props kp, Message.schema X props kp ∉ msgs) →
      ps'.schemas.lookup X = none := by
  induction msgs with
  | nil =>
    intro ps ps' hrun hnone _
    simp only [producerRun] at hrun
    exact (Except.ok.inj hrun) ▸ hnone
  | cons m rest ih =>
    intro ps ps' hrun hnone hnos
    simp only [producerRun] at hrun
    cases hstep : producerStep ps m with
    | error e => rw [hstep] at hrun; exact absurd hrun (by simp)
    | ok ps1 =>
      rw [hstep] at hrun
      refine ih ps1 ps' hrun ?_ (fun props kp h => hnos props kp (List.mem_cons_of_mem _ h))
      cases m with
      | record stream rec =>
        simp only [producerStep] at hstep
        cases hl : ps.schemas.lookup stream with
        | none => rw [hl] at hstep; exact absurd hstep (by simp)
        | some fs =>
          rw [hl] at hstep
          simp only [Except.ok.injEq] at hstep
          rw [← hstep]
          exact hnone
      | state v =>
        simp only [producerStep, Except.ok.injEq] at hstep
        rw [← hstep]
        exact hnone
      | schema stream props kp =>
        have hne : X ≠ stream := by
          intro h
          subst h
          exact hnos props kp (List.mem_cons_self _ _)
        simp only [producerStep, Except.ok.injEq] at hstep
        rw [← hstep]
        simpa [lookup_pySet_ne _ _ _ _ hne] using hnone
      | unknown =>
        simp only [producerStep, Except.ok.injEq] at hstep
        rw [← hstep]
        exact hnone

/-- **C4.** A RecordMessage for stream `X` arriving before any SchemaMessage
for `X` (and after a prefix the producer processed successfully) raises the
fatal sequencing ValueError whose message names `X`; the record is never
enqueued or skipped — the run aborts with the error. -/
theorem record_before_schema_fatal (pre : List Message) (X : String) (r : PyDict)
    (hnos : ∀ props kp, Message.schema X props kp ∉ pre)
    (hok : ∃ ps, producerRun initialProducerState pre = .ok ps) :
    producerRun initialProducerState (pre ++ [.record X r])
      = .error (.valueError (recordBeforeSchemaMsg X)) := by
  obtain ⟨ps, hps⟩ := hok
  have hX : ps.schemas.lookup X = none :=
    producerRun_lookup_none pre X initialProducerState ps hps (by simp [initialProducerState]) hnos
  rw [producerRun_append, hps]
  simp [producerRun, producerStep, hX]

def c4DemoProps : Option SchemaProps :=
  some (.cons "a" (.mk (some (.multi ["null", "string"])) none) .nil)

/-- Witness for C4: a record for stream "test" after only a schema for
stream "other". -/
theorem record_before_schema_fatal_witness :
    producerRun initialProducerState
        ([.schema "other" c4DemoProps ["a"]] ++ [.record "test" .nil])
      = .error (.valueError (recordBeforeSchemaMsg "test")) := by
  apply record_before_schema_fatal
  · intro props kp h
    simp at h
  · exact ⟨_, rfl⟩

/-! ## Consumer (claims C3, C8) — `persist_messages.consumer`,
`__init__.py` lines 152-203

The consumer's calls to `write_file_to_hdfs` pass keyword arguments
(`pyarrow_tables`, `config`, `files_created_list`) that the
`write_file_to_hdfs` surviving in `helpers.py` does not accept, so the
variant actually invoked is code of this repository missing from `src/`;
it is modelled from the spec below (`writeFileToHdfs`).  The pyarrow
schema attached to a stream is carried opaquely: the `create_dataframe`
cast affects the physical encoding, never row counts or flush decisions.
The `pyarrow_schemas[current_stream_name]` lookups are guaranteed to
succeed by the producer-side sequencing check (claim C4) and are not
modelled as failures. -/

/-- The two `TargetConfig` fields the consumer's flush policy reads. -/
structure ConsumerConfig where
  rows_per_file : Option Nat
  file_size_mb : Option Nat

/-- A pyarrow table, abstracted to its list of rows (`create_dataframe`
builds one table row per buffered record). -/
abbrev Table := List FlatRecord

/-- Consumer-local state: `files_created`, `current_stream_name`, the
`records` buffer (a `defaultdict(list)`, so a total function with default
`[]`), `records_count` (`defaultdict(int)`), `pyarrow_tables` and
`pyarrow_schemas` (plain dicts, so partial maps). -/
structure ConsumerState where
  filesCreated : List (String × Nat)
  currentStream : Option String
  records : String → List FlatRecord
  recordsCount : String → Nat
  pyarrowTables : String → Option Table
  pyarrowSchemas : String → Option (List (String × Option TypeSpec))

def initialConsumerState : ConsumerState :=
  ⟨[], none, fun _ => [], fun _ => 0, fun _ => none, fun _ => none⟩

/-- `helpers.concat_tables`: pop the stream's buffered records, columnarize
them, and concatenate onto the existing accumulated table (a first
materialization simply assigns). -/
def concatTables (stream : String) (st : ConsumerState) : ConsumerState :=
  let newRows := st.records stream
  { st with
    records := fun s => if s = stream then [] else st.records s,
    pyarrowTables := fun s =>
      if s = stream then
        some (match st.pyarrowTables stream with
              | none => newRows
              | some t => t ++ newRows)
      else st.pyarrowTables s }

/-- Modelled from the spec: the `write_file_to_hdfs` variant invoked by
`consumer` is missing from `src/` (only an older, incompatible signature
survives in `helpers.py`).  Per spec §4.4/§4.7, a flush materializes any
pending buffered rows, writes the stream's accumulated rows — if there are
any — as exactly one new file (recorded as `(stream, row count)` on
`files_created`), and destroys the stream's accumulated table. -/
def writeFileToHdfs (stream : String) (st : ConsumerState) : ConsumerState :=
  let st1 := if (st.records stream).isEmpty then st else concatTables stream st
  match st1.pyarrowTables stream with
  | none => st1
  | some t =>
      { st1 with
        filesCreated := st1.filesCreated ++ [(stream, t.length)],
        pyarrowTables := fun s => if s = stream then none else st1.pyarrowTables s }

/-- The flush predicate of the consumer's RECORD branch:
`(file_size_mb and stream in pyarrow_tables and bytes_to_mb(nbytes) >= file_size_mb > 0)
or (rows_per_file and not records_count[stream] % rows_per_file)`.
`tableBytes` abstracts `pyarrow.Table.nbytes`; `bytes_to_mb` divides by
1024² (the Python float comparison is modelled over `ℚ`). -/
def flushDue (cfg : ConsumerConfig) (tableBytes : Table → Nat) (st : ConsumerState)
    (stream : String) : Bool :=
  (match cfg.file_size_mb, st.pyarrowTables stream with
   | some b, some t =>
      decide (b ≠ 0) && decide ((tableBytes t : ℚ) / (1024 * 1024) ≥ (b : ℚ)) && decide (0 < b)
   | _, _ => false)
  ||
  (match cfg.rows_per_file with
   | some k => decide (k ≠ 0) && decide (st.recordsCount stream % k = 0)
   | none => false)

/-- Appending an accepted record: set `current_stream_name`, append to the
stream's buffer, bump its cumulative count. -/
def appendRecord (st1 : ConsumerState) (stream : String) (flat : FlatRecord) : ConsumerState :=
  { st1 with
    currentStream := some stream,
    records := fun s => if s = stream then st1.records s ++ [flat] else st1.records s,
    recordsCount := fun s => if s = stream then st1.recordsCount s + 1 else st1.recordsCount s }

/-- "Update the pyarrow table on every 1000 records":
`if not len(records[current_stream_name]) % 1000: concat_tables(...)`. -/
def materializeStep (stream : String) (st2 : ConsumerState) : ConsumerState :=
  if (st2.records stream).length % 1000 = 0 then concatTables stream st2 else st2

/-- The threshold-triggered flush after accepting a record. -/
def thresholdFlush (cfg : ConsumerConfig) (tableBytes : Table → Nat) (stream : String)
    (st3 : ConsumerState) : ConsumerState :=
  if flushDue cfg tableBytes st3 stream then writeFileToHdfs stream st3 else st3

def acceptRecord (cfg : ConsumerConfig) (tableBytes : Table → Nat) (st1 : ConsumerState)
    (stream : String) (flat : FlatRecord) : ConsumerState :=
  thresholdFlush cfg tableBytes stream (materializeStep stream (appendRecord st1 stream flat))

/-- The consumer's RECORD branch: flush the previously-current stream when
the stream identity changes, then accept the record. -/
def consumerRecordStep (cfg : ConsumerConfig) (tableBytes : Table → Nat) (st : ConsumerState)
    (stream : String) (flat : FlatRecord) : ConsumerState :=
  let st1 :=
    match st.currentStream with
    | some c => if c ≠ stream then writeFileToHdfs c st else st
    | none => st
  acceptRecord cfg tableBytes st1 stream flat

def consumerStep (cfg : ConsumerConfig) (tableBytes : Table → Nat) (st : ConsumerState) :
    QueueItem → ConsumerState
  | .record stream flat => consumerRecordStep cfg tableBytes st stream flat
  | .schema stream fs =>
      { st with pyarrowSchemas := fun s => if s = stream then some fs else st.pyarrowSchemas s }
  | .eof =>
      match st.currentStream with
      | some c => writeFileToHdfs c st
      | none => st

def consumerRun (cfg : ConsumerConfig) (tableBytes : Table → Nat) (st : ConsumerState)
    (items : List QueueItem) : ConsumerState :=
  items.foldl (consumerStep cfg tableBytes) st

/-- Rows buffered or accumulated but not yet written for a stream. -/
def pendingRows (st : ConsumerState) (s : String) : Nat :=
  (st.records s).length + (match st.pyarrowTables s with | some t => t.length | none => 0)

/-! ### Frame lemmas for the consumer state machine -/

theorem concatTables_records_other {s stream : String} (st : ConsumerState) (h : s ≠ stream) :
    (concatTables stream st).records s = st.records s := by simp [concatTables, h]

theorem concatTables_tables_other {s stream : String} (st : ConsumerState) (h : s ≠ stream) :
    (concatTables stream st).pyarrowTables s = st.pyarrowTables s := by simp [concatTables, h]

theorem concatTables_files (stream : String) (st : ConsumerState) :
    (concatTables stream st).filesCreated = st.filesCreated := rfl

theorem concatTables_current (stream : String) (st : ConsumerState) :
    (concatTables stream st).currentStream = st.currentStream := rfl

theorem concatTables_count (stream : String) (st : ConsumerState) :
    (concatTables stream st).recordsCount = st.recordsCount := rfl

theorem writeFileToHdfs_records_other {s stream : String} (st : ConsumerState) (h : s ≠ stream) :
    (writeFileToHdfs stream st).records s = st.records s := by
  unfold writeFileToHdfs
  set st1 := if (st.records stream).isEmpty then st else concatTables stream st with hst1
  have h1 : st1.records s = st.records s := by
    rw [hst1]
    split
    · rfl
    · exact concatTables_records_other st h
  cases htab : st1.pyarrowTables stream <;> simp only [htab] <;> exact h1

theorem writeFileToHdfs_tables_other {s stream : String} (st : ConsumerState) (h : s ≠ stream) :
    (writeFileToHdfs stream st).pyarrowTables s = st.pyarrowTables s := by
  unfold writeFileToHdfs
  set st1 := if (st.records stream).isEmpty then st else concatTables stream st with hst1
  have h1 : st1.pyarrowTables s = st.pyarrowTables s := by
    rw [hst1]
    split
    · rfl
    · exact concatTables_tables_other st h
  cases htab : st1.pyarrowTables stream <;> simp only [htab]
  · exact h1
  · simp only [h, if_neg h]
    exact h1

theorem writeFileToHdfs_count (stream : String) (st : ConsumerState) :
    (writeFileToHdfs stream st).recordsCount = st.recordsCount := by
  unfold writeFileToHdfs
  set st1 := if (st.records stream).isEmpty then st else concatTables stream st with hst1
  have h1 : st1.recordsCount = st.recordsCount := by
    rw [hst1]
    split
    · rfl
    · rfl
  cases htab : st1.pyarrowTables stream <;> simp only [htab] <;> exact h1

theorem writeFileToHdfs_current (stream : String) (st : ConsumerState) :
    (writeFileToHdfs stream st).currentStream = st.currentStream := by
  unfold writeFileToHdfs
  set st1 := if (st.records stream).isEmpty then st else concatTables stream st with hst1
  have h1 : st1.currentStream = st.currentStream := by
    rw [hst1]
    split
    · rfl
    · rfl
  cases htab : st1.pyarrowTables stream <;> simp only [htab] <;> exact h1

theorem writeFileToHdfs_records_self (stream : String) (st : ConsumerState) :
    (writeFileToHdfs stream st).records stream = [] := by
  unfold writeFileToHdfs
  set st1 := if (st.records stream).isEmpty then st else concatTables stream st with hst1
  have h1 : st1.records stream = [] := by
    rw [hst1]
    split
    · exact List.isEmpty_iff.mp (by assumption)
    · simp [concatTables]
  cases htab : st1.pyarrowTables stream <;> simp only [htab] <;> exact h1

theorem writeFileToHdfs_tables_self (stream : String) (st : ConsumerState) :
    (writeFileToHdfs stream st).pyarrowTables stream = none := by
  unfold writeFileToHdfs
  set st1 := if (st.records stream).isEmpty then st else concatTables stream st with hst1
  cases htab : st1.pyarrowTables stream <;> simp only [htab]
  all_goals simp [htab]

theorem writeFileToHdfs_files (stream : String) (st : ConsumerState) :
    (writeFileToHdfs stream st).filesCreated
      = if (st.records stream).isEmpty ∧ st.pyarrowTables stream = none then st.filesCreated
        else st.filesCreated ++ [(stream, pendingRows st stream)] := by
  unfold writeFileToHdfs
  by_cases hr : (st.records stream).isEmpty
  · simp only [if_pos hr]
    cases htab : st.pyarrowTables stream <;> simp only [htab]
    · simp [hr, htab]
    · have hlen : (st.records stream).length = 0 := by
        rw [List.isEmpty_iff] at hr
        simp [hr]
      simp [hr, htab, pendingRows, hlen]
  · simp only [if_neg hr]
    cases htab : st.pyarrowTables stream
    · have hct : (concatTables stream st).pyarrowTables stream = some (st.records stream) := by
        simp [concatTables, htab]
      simp only [hct]
      have hlen : (st.records stream).length = pendingRows st stream := by
        simp [pendingRows, htab]
      simp [concatTables, hr, hlen]
    · rename_i t
      have hct : (concatTables stream st).pyarrowTables stream
          = some (t ++ st.records stream) := by
        simp [concatTables, htab]
      simp only [hct]
      have hlen : (t ++ st.records stream).length = pendingRows st stream := by
        simp [pendingRows, htab]
        omega
      simp [concatTables, hr, hlen]

theorem materializeStep_records_other {s stream : String} (st : ConsumerState) (hs : s ≠ stream) :
    (materializeStep stream st).records s = st.records s := by
  unfold materializeStep
  split
  · exact concatTables_records_other _ hs
  · rfl

theorem materializeStep_tables_other {s stream : String} (st : ConsumerState) (hs : s ≠ stream) :
    (materializeStep stream st).pyarrowTables s = st.pyarrowTables s := by
  unfold materializeStep
  split
  · exact concatTables_tables_other _ hs
  · rfl

theorem materializeStep_current (stream : String) (st : ConsumerState) :
    (materializeStep stream st).currentStream = st.currentStream := by
  unfold materializeStep
  split
  · rfl
  · rfl

theorem materializeStep_files (stream : String) (st : ConsumerState) :
    (materializeStep stream st).filesCreated = st.filesCreated := by
  unfold materializeStep
  split
  · rfl
  · rfl

theorem materializeStep_count (stream : String) (st : ConsumerState) :
    (materializeStep stream st).recordsCount = st.recordsCount := by
  unfold materializeStep
  split
  · rfl
  · rfl

theorem thresholdFlush_records_other {s stream : String} (cfg : ConsumerConfig)
    (tb : Table → Nat) (st : ConsumerState) (hs : s ≠ stream) :
    (thresholdFlush cfg tb stream st).records s = st.records s := by
  unfold thresholdFlush
  split
  · exact writeFileToHdfs_records_other _ hs
  · rfl

theorem thresholdFlush_tables_other {s stream : String} (cfg : ConsumerConfig)
    (tb : Table → Nat) (st : ConsumerState) (hs : s ≠ stream) :
    (thresholdFlush cfg tb stream st).pyarrowTables s = st.pyarrowTables s := by
  unfold thresholdFlush
  split
  · exact writeFileToHdfs_tables_other _ hs
  · rfl

theorem thresholdFlush_current (cfg : ConsumerConfig) (tb : Table → Nat) (stream : String)
    (st : ConsumerState) :
    (thresholdFlush cfg tb stream st).currentStream = st.currentStream := by
  unfold thresholdFlush
  split
  · exact writeFileToHdfs_current _ _
  · rfl

theorem thresholdFlush_files_extend (cfg : ConsumerConfig) (tb : Table → Nat) (stream : String)
    (st : ConsumerState) :
    ∃ tail, (thresholdFlush cfg tb stream st).filesCreated = st.filesCreated ++ tail := by
  unfold thresholdFlush
  split
  · rw [writeFileToHdfs_files]
    split
    · exact ⟨[], by simp⟩
    · exact ⟨_, rfl⟩
  · exact ⟨[], by simp⟩

theorem acceptRecord_records_other {s stream : String} (cfg : ConsumerConfig)
    (tb : Table → Nat) (st : ConsumerState) (flat : FlatRecord) (hs : s ≠ stream) :
    (acceptRecord cfg tb st stream flat).records s = st.records s := by
  unfold acceptRecord
  rw [thresholdFlush_records_other _ _ _ hs, materializeStep_records_other _ hs]
  simp [appendRecord, hs]

theorem acceptRecord_tables_other {s stream : String} (cfg : ConsumerConfig)
    (tb : Table → Nat) (st : ConsumerState) (flat : FlatRecord) (hs : s ≠ stream) :
    (acceptRecord cfg tb st stream flat).pyarrowTables s = st.pyarrowTables s := by
  unfold acceptRecord
  rw [thresholdFlush_tables_other _ _ _ hs, materializeStep_tables_other _ hs]
  rfl

theorem acceptRecord_current (cfg : ConsumerConfig) (tb : Table → Nat) (st : ConsumerState)
    (stream : String) (flat : FlatRecord) :
    (acceptRecord cfg tb st stream flat).currentStream = some stream := by
  unfold acceptRecord
  rw [thresholdFlush_current, materializeStep_current]
  rfl

theorem acceptRecord_files_extend (cfg : ConsumerConfig) (tb : Table → Nat) (st : ConsumerState)
    (stream : String) (flat : FlatRecord) :
    ∃ tail, (acceptRecord cfg tb st stream flat).filesCreated = st.filesCreated ++ tail := by
  unfold acceptRecord
  obtain ⟨tail, htail⟩ := thresholdFlush_files_extend cfg tb stream
    (materializeStep stream (appendRecord st stream flat))
  rw [htail, materializeStep_files]
  exact ⟨tail, rfl⟩

/-- At most one stream (the current one) has a non-empty buffer or a live
accumulated table. -/
def OneHotInv (st : ConsumerState) : Prop :=
  ∀ s, st.currentStream ≠ some s → st.pyarrowTables s = none ∧ st.records s = []

theorem consumerStep_one_hot (cfg : ConsumerConfig) (tb : Table → Nat) (st : ConsumerState)
    (it : QueueItem) (h : OneHotInv st) : OneHotInv (consumerStep cfg tb st it) := by
  cases it with
  | record stream flat =>
    intro s hs
    have hcurfin : (consumerStep cfg tb st (.record stream flat)).currentStream = some stream := by
      simp only [consumerStep, consumerRecordStep]
      exact acceptRecord_current _ _ _ _ _
    have hss : s ≠ stream := by
      intro he
      subst he
      exact hs hcurfin
    simp only [consumerStep, consumerRecordStep]
    rw [acceptRecord_tables_other _ _ _ _ hss, acceptRecord_records_other _ _ _ _ hss]
    cases hcur : st.currentStream with
    | none =>
      dsimp only
      exact h s (by rw [hcur]; simp)
    | some c =>
      dsimp only
      by_cases hcs : c = stream
      · subst hcs
        rw [if_neg (by simp)]
        exact h s (by rw [hcur]; intro he; exact hss (Option.some.inj he).symm)
      · rw [if_pos hcs]
        by_cases hsc : s = c
        · subst hsc
          exact ⟨writeFileToHdfs_tables_self _ _, writeFileToHdfs_records_self _ _⟩
        · rw [writeFileToHdfs_tables_other _ hsc, writeFileToHdfs_records_other _ hsc]
          exact h s (by rw [hcur]; intro he; exact hsc (Option.some.inj he).symm)
  | schema stream fs =>
    intro s hs
    exact h s hs
  | eof =>
    cases hcur : st.currentStream with
    | none => simp only [consumerStep, hcur]; exact h
    | some c =>
      intro s hs
      simp only [consumerStep, hcur] at hs ⊢
      have hsc : s ≠ c := by
        rw [writeFileToHdfs_current, hcur] at hs
        intro he
        exact hs (by rw [he])
      rw [writeFileToHdfs_tables_other _ hsc, writeFileToHdfs_records_other _ hsc]
      exact h s (by rw [hcur]; intro he; exact hsc (Option.some.inj he).symm)

theorem consumerRun_one_hot (cfg : ConsumerConfig) (tb : Table → Nat) (items : List QueueItem) :
    ∀ st : ConsumerState, OneHotInv st → OneHotInv (consumerRun cfg tb st items) := by
  induction items with
  | nil => intro st h; exact h
  | cons it rest ih =>
    intro st h
    exact ih _ (consumerStep_one_hot _ _ _ _ h)

/-- **C8.** (i) In every reachable consumer state, any stream other than
the current one has no accumulated table and an empty buffer — at most one
stream holds data at any time.  (ii) When a record arrives for a stream
different from the current one, the previous stream is flushed before the
record is accepted: its buffer and table are emptied, and — whenever it had
any pending rows — a file holding exactly those rows is appended to
`files_created` before any file the accepted record may trigger.  Both
parts hold for every configuration, including `rows_per_file = None`: the
stream-change flush is not a row-count trigger. -/
theorem consumer_stream_change_flush :
    (∀ (cfg : ConsumerConfig) (tb : Table → Nat) (items : List QueueItem) (s : String),
      (consumerRun cfg tb initialConsumerState items).currentStream ≠ some s →
        (consumerRun cfg tb initialConsumerState items).pyarrowTables s = none
        ∧ (consumerRun cfg tb initialConsumerState items).records s = [])
    ∧ (∀ (cfg : ConsumerConfig) (tb : Table → Nat) (st : ConsumerState) (stream : String)
        (flat : FlatRecord) (c : String), st.currentStream = some c → c ≠ stream →
        (consumerRecordStep cfg tb st stream flat).records c = []
        ∧ (consumerRecordStep cfg tb st stream flat).pyarrowTables c = none
        ∧ (¬((st.records c).isEmpty ∧ st.pyarrowTables c = none) →
            ∃ tail, (consumerRecordStep cfg tb st stream flat).filesCreated
              = (st.filesCreated ++ [(c, pendingRows st c)]) ++ tail)) := by
  constructor
  · intro cfg tb items s hcur
    exact consumerRun_one_hot cfg tb items initialConsumerState (fun _ _ => ⟨rfl, rfl⟩) s hcur
  · intro cfg tb st stream flat c hcur hne
    simp only [consumerRecordStep, hcur, if_pos hne]
    refine ⟨?_, ?_, ?_⟩
    · rw [acceptRecord_records_other _ _ _ _ hne]
      exact writeFileToHdfs_records_self _ _
    · rw [acceptRecord_tables_other _ _ _ _ hne]
      exact writeFileToHdfs_tables_self _ _
    · intro hnz
      obtain ⟨tail, htail⟩ := acceptRecord_files_extend cfg tb (writeFileToHdfs c st) stream flat
      rw [htail, writeFileToHdfs_files, if_neg hnz]
      exact ⟨tail, rfl⟩

/-- A concrete consumer state: stream "a" current with one buffered row. -/
def c8DemoState : ConsumerState :=
  { filesCreated := []
    currentStream := some "a"
    records := fun s => if s = "a" then [[("x", PyVal.pint 1)]] else []
    recordsCount := fun s => if s = "a" then 1 else 0
    pyarrowTables := fun _ => none
    pyarrowSchemas := fun _ => none }

/-- Witness for C8: a record for stream "b" arriving while "a" is current
flushes "a"'s single buffered row as a file. -/
theorem consumer_stream_change_flush_witness :
    (consumerRecordStep ⟨none, none⟩ (fun _ => 0) c8DemoState "b" []).records "a" = []
    ∧ (consumerRecordStep ⟨none, none⟩ (fun _ => 0) c8DemoState "b" []).pyarrowTables "a" = none
    ∧ (consumerRecordStep ⟨none, none⟩ (fun _ => 0) c8DemoState "b" []).filesCreated
        = [("a", 1)] := by
  have h := consumer_stream_change_flush.2 ⟨none, none⟩ (fun _ => 0) c8DemoState "b" [] "a"
    rfl (by decide)
  exact ⟨h.1, h.2.1, by rfl⟩

/-! ### Row-count flush exactness (claim C3) -/

theorem succ_mod_eq (t K : Nat) (hK : 0 < K) :
    (t + 1) % K = if t % K + 1 = K then 0 else t % K + 1 := by
  have hdm := Nat.div_add_mod t K
  have h2 : t + 1 = K * (t / K) + (t % K + 1) := by
    rw [← Nat.add_assoc, hdm]
  by_cases h : t % K + 1 = K
  · rw [if_pos h]
    rw [show t + 1 = K * (t / K + 1) by rw [h2, h, Nat.mul_add, Nat.mul_one]]
    exact Nat.mul_mod_right _ _
  · rw [if_neg h]
    have hlt : t % K + 1 < K := by
      have := Nat.mod_lt t hK
      omega
    rw [h2, Nat.mul_add_mod]
    exact Nat.mod_eq_of_lt hlt

theorem succ_div_eq (t K : Nat) (hK : 0 < K) :
    (t + 1) / K = if t % K + 1 = K then t / K + 1 else t / K := by
  have hdm := Nat.div_add_mod t K
  have h2 : t + 1 = K * (t / K) + (t % K + 1) := by
    rw [← Nat.add_assoc, hdm]
  by_cases h : t % K + 1 = K
  · rw [if_pos h]
    rw [show t + 1 = K * (t / K + 1) by rw [h2, h, Nat.mul_add, Nat.mul_one]]
    exact Nat.mul_div_cancel_left _ hK
  · rw [if_neg h]
    have hlt : t % K + 1 < K := by
      have := Nat.mod_lt t hK
      omega
    rw [h2, Nat.mul_add_div hK, Nat.div_eq_of_lt hlt, Nat.add_zero]

/-- The single-stream invariant behind C3, after `t` records with
`rows_per_file = K` and no byte-size threshold: the cumulative count is
`t`, `⌊t/K⌋` files of exactly `K` rows each have been written, and the
`t % K` pending rows are split between the buffer (`t % K % 1000` rows,
reflecting the every-1000-records materialization) and the accumulated
table (the already-materialized remainder). -/
def c3Inv (s : String) (r : FlatRecord) (K t : Nat) (st : ConsumerState) : Prop :=
  st.filesCreated = List.replicate (t / K) (s, K)
  ∧ st.recordsCount s = t
  ∧ st.records s = List.replicate (t % K % 1000) r
  ∧ st.pyarrowTables s = (if t % K - t % K % 1000 = 0 then none
      else some (List.replicate (t % K - t % K % 1000) r))
  ∧ st.currentStream = (if t = 0 then none else some s)

/-- One accepted record preserves the C3 invariant, advancing `t`: the
threshold flush fires exactly when the new cumulative count is a positive
multiple of `K`, emitting one file of exactly `K` rows. -/
theorem c3Inv_step (s : String) (r : FlatRecord) (K : Nat) (hK : 0 < K) (tb : Table → Nat)
    (t : Nat) (st : ConsumerState) (h : c3Inv s r K t st) :
    c3Inv s r K (t + 1) (consumerRecordStep ⟨some K, none⟩ tb st s r) := by
  obtain ⟨hf, hc, hb, htab, hcur⟩ := h
  have hplt : t % K < K := Nat.mod_lt _ hK
  have hmod := succ_mod_eq t K hK
  have hdiv := succ_div_eq t K hK
  have hstep : consumerRecordStep ⟨some K, none⟩ tb st s r
      = thresholdFlush ⟨some K, none⟩ tb s (materializeStep s (appendRecord st s r)) := by
    simp only [consumerRecordStep, acceptRecord]
    rw [hcur]
    by_cases ht0 : t = 0
    · simp [ht0]
    · simp [ht0]
  rw [hstep]
  generalize hp : t % K = p at hb htab hmod hdiv hplt
  generalize hq : t / K = q at hf hdiv
  have hblt : p % 1000 < 1000 := Nat.mod_lt _ (by norm_num)
  have hA_records : (appendRecord st s r).records s = List.replicate (p % 1000) r ++ [r] := by
    simp [appendRecord, hb]
  have hA_count : (appendRecord st s r).recordsCount s = t + 1 := by
    simp [appendRecord, hc]
  have hA_len : ((appendRecord st s r).records s).length = p % 1000 + 1 := by
    rw [hA_records]; simp
  have hA_tab : (appendRecord st s r).pyarrowTables s = st.pyarrowTables s := rfl
  have hM_records : (materializeStep s (appendRecord st s r)).records s
      = List.replicate ((p + 1) % 1000) r := by
    by_cases hb999 : p % 1000 = 999
    · have hcond : ((appendRecord st s r).records s).length % 1000 = 0 := by
        rw [hA_len, hb999]
      rw [materializeStep, if_pos hcond]
      have h0 : (p + 1) % 1000 = 0 := by omega
      rw [h0]
      simp [concatTables]
    · have hcond : ¬(((appendRecord st s r).records s).length % 1000 = 0) := by
        rw [hA_len]
        omega
      rw [materializeStep, if_neg hcond, hA_records]
      have h1 : (p + 1) % 1000 = p % 1000 + 1 := by omega
      rw [h1, List.replicate_succ']
  have hM_tables : (materializeStep s (appendRecord st s r)).pyarrowTables s
      = (if (p + 1) - (p + 1) % 1000 = 0 then none
         else some (List.replicate ((p + 1) - (p + 1) % 1000) r)) := by
    by_cases hb999 : p % 1000 = 999
    · have hcond : ((appendRecord st s r).records s).length % 1000 = 0 := by
        rw [hA_len, hb999]
      rw [materializeStep, if_pos hcond]
      have h0 : (p + 1) % 1000 = 0 := by omega
      by_cases hz : p - p % 1000 = 0
      · rw [if_pos hz] at htab
        have hrep : List.replicate (p % 1000) r ++ [r] = List.replicate (p + 1) r := by
          rw [← List.replicate_succ']
          congr 1
          omega
        simp only [concatTables, hA_tab, htab, hA_records]
        simp [hrep, h0]
      · rw [if_neg hz] at htab
        have hrep : List.replicate (p - p % 1000) r ++ (List.replicate (p % 1000) r ++ [r])
            = List.replicate (p + 1) r := by
          rw [← List.replicate_succ', ← List.replicate_add]
          congr 1
          omega
        simp only [concatTables, hA_tab, htab, hA_records]
        simp [hrep, h0]
    · have hcond : ¬(((appendRecord st s r).records s).length % 1000 = 0) := by
        rw [hA_len]
        omega
      rw [materializeStep, if_neg hcond]
      have harith1 : (p + 1) - (p + 1) % 1000 = p - p % 1000 := by omega
      rw [harith1]
      exact htab
  have hM_count : (materializeStep s (appendRecord st s r)).recordsCount s = t + 1 := by
    rw [show (materializeStep s (appendRecord st s r)).recordsCount
          = (appendRecord st s r).recordsCount from materializeStep_count _ _]
    exact hA_count
  have hM_files : (materializeStep s (appendRecord st s r)).filesCreated
      = List.replicate q (s, K) := by
    rw [materializeStep_files]
    exact hf
  have hM_cur : (materializeStep s (appendRecord st s r)).currentStream = some s := by
    rw [materializeStep_current]
    rfl
  have hM_pending : pendingRows (materializeStep s (appendRecord st s r)) s = p + 1 := by
    rw [pendingRows, hM_records, hM_tables]
    by_cases hz : (p + 1) - (p + 1) % 1000 = 0
    · rw [if_pos hz]
      show (List.replicate ((p + 1) % 1000) r).length + 0 = p + 1
      simp only [List.length_replicate]
      omega
    · rw [if_neg hz]
      show (List.replicate ((p + 1) % 1000) r).length
          + (List.replicate ((p + 1) - (p + 1) % 1000) r).length = p + 1
      simp only [List.length_replicate]
      omega
  by_cases hpk : p + 1 = K
  · have hfd : flushDue ⟨some K, none⟩ tb (materializeStep s (appendRecord st s r)) s = true := by
      simp only [flushDue, hM_count, hmod, if_pos hpk]
      simp [hK.ne']
    rw [thresholdFlush, if_pos hfd]
    refine ⟨?_, ?_, ?_, ?_, ?_⟩
    · rw [writeFileToHdfs_files, hdiv, if_pos hpk]
      have hcond : ¬(((materializeStep s (appendRecord st s r)).records s).isEmpty
          ∧ (materializeStep s (appendRecord st s r)).pyarrowTables s = none) := by
        rintro ⟨he, ht⟩
        rw [hM_records, List.isEmpty_iff] at he
        rw [hM_tables] at ht
        have hb0 : (p + 1) % 1000 = 0 := by
          by_contra hne
          exact hne (by simpa [List.replicate_eq_nil_iff] using he)
        rw [if_neg (by omega)] at ht
        exact Option.noConfusion ht
      rw [if_neg hcond, hM_files, hM_pending, hpk, List.replicate_succ']
    · rw [writeFileToHdfs_count]
      exact hM_count
    · rw [writeFileToHdfs_records_self, hmod, if_pos hpk]
      simp
    · rw [writeFileToHdfs_tables_self, hmod, if_pos hpk]
      simp
    · rw [writeFileToHdfs_current, hM_cur]
      simp
  · have hfd : flushDue ⟨some K, none⟩ tb (materializeStep s (appendRecord st s r)) s = false := by
      simp only [flushDue, hM_count, hmod, if_neg hpk]
      simp
    rw [thresholdFlush, if_neg (by simp [hfd])]
    refine ⟨?_, ?_, ?_, ?_, ?_⟩
    · rw [hM_files, hdiv, if_neg hpk]
    · exact hM_count
    · rw [hM_records, hmod, if_neg hpk]
    · rw [hM_tables, hmod, if_neg hpk]
    · rw [hM_cur]
      simp

theorem consumerRun_snoc (cfg : ConsumerConfig) (tb : Table → Nat) (st : ConsumerState)
    (l : List QueueItem) (it : QueueItem) :
    consumerRun cfg tb st (l ++ [it]) = consumerStep cfg tb (consumerRun cfg tb st l) it := by
  simp [consumerRun, List.foldl_append]

theorem c3Inv_run (s : String) (r : FlatRecord) (K : Nat) (hK : 0 < K) (tb : Table → Nat)
    (fs : List (String × Option TypeSpec)) (t : Nat) :
    c3Inv s r K t (consumerRun ⟨some K, none⟩ tb initialConsumerState
      (QueueItem.schema s fs :: List.replicate t (QueueItem.record s r))) := by
  induction t with
  | zero =>
    refine ⟨?_, rfl, ?_, ?_, rfl⟩
    · simp [consumerRun, consumerStep, initialConsumerState, Nat.zero_div]
    · simp [consumerRun, consumerStep, initialConsumerState, Nat.zero_mod]
    · simp [consumerRun, consumerStep, initialConsumerState, Nat.zero_mod]
  | succ t ih =>
    have hrep : QueueItem.schema s fs :: List.replicate (t + 1) (QueueItem.record s r)
        = (QueueItem.schema s fs :: List.replicate t (QueueItem.record s r))
          ++ [QueueItem.record s r] := by
      rw [List.replicate_succ']
      simp
    rw [hrep, consumerRun_snoc]
    exact c3Inv_step s r K hK tb t _ ih

/-- **C3.** With `rows_per_file = K` and no byte-size threshold, feeding
`M*K` records of a single stream (after its schema) and the end-of-stream
sentinel produces exactly `M` files of exactly `K` rows each; moreover
after any `t` records the number of files written is exactly `⌊t/K⌋` — the
flush fires exactly when the cumulative row count is a positive multiple
of `K`. -/
theorem rows_per_file_flush_exact (K M : Nat) (hK : 0 < K) (hM : 0 < M) (s : String)
    (fs : List (String × Option TypeSpec)) (r : FlatRecord) (tb : Table → Nat) :
    (consumerRun ⟨some K, none⟩ tb initialConsumerState
        (QueueItem.schema s fs :: (List.replicate (M * K) (QueueItem.record s r)
          ++ [QueueItem.eof]))).filesCreated
      = List.replicate M (s, K)
    ∧ (∀ t, (consumerRun ⟨some K, none⟩ tb initialConsumerState
        (QueueItem.schema s fs :: List.replicate t (QueueItem.record s r))).filesCreated
      = List.replicate (t / K) (s, K)) := by
  have hmain := c3Inv_run s r K hK tb fs
  constructor
  · obtain ⟨hf, hc, hb, htab, hcur⟩ := hmain (M * K)
    have hsplit : QueueItem.schema s fs
          :: (List.replicate (M * K) (QueueItem.record s r) ++ [QueueItem.eof])
        = (QueueItem.schema s fs :: List.replicate (M * K) (QueueItem.record s r))
          ++ [QueueItem.eof] := by simp
    rw [hsplit, consumerRun_snoc]
    have hMK : M * K ≠ 0 := Nat.mul_ne_zero (by omega) (by omega)
    rw [if_neg hMK] at hcur
    have hmm : M * K % K = 0 := Nat.mul_mod_left M K
    rw [hmm] at hb htab
    simp only [Nat.zero_mod, Nat.sub_zero, if_pos rfl] at hb htab
    simp only [consumerStep]
    rw [hcur]
    rw [writeFileToHdfs_files, if_pos ⟨by rw [hb]; rfl, htab⟩, hf]
    rw [Nat.mul_div_cancel _ hK]
  · intro t
    exact (hmain t).1

/-- Witness for C3 at `K = 3`, `M = 2`: six records yield exactly two
three-row files. -/
theorem rows_per_file_flush_exact_witness :
    (consumerRun ⟨some 3, none⟩ (fun _ => 0) initialConsumerState
        (QueueItem.schema "s" [] :: (List.replicate 6 (QueueItem.record "s" [])
          ++ [QueueItem.eof]))).filesCreated
      = [("s", 3), ("s", 3)] := by
  have h := (rows_per_file_flush_exact 3 2 (by decide) (by decide) "s" [] [] (fun _ => 0)).1
  simpa using h

/-! ## Remote file resolver (claim C9) — `utils/hdfs.py` lines 55-104

The HDFS client, directory listing and parquet download/read are external
I/O; the resolver is modelled as a function of the directory listing and
the block size.  Python's `0.85` double differs from `85/100` by less than
2⁻⁵³ relative error, which cannot change the comparison against integer
byte sizes of realistic magnitude; the threshold is modelled over `ℚ`. -/

/-- `pyarrow.fs.FileInfo`, restricted to the fields the resolver reads. -/
structure FileInfo where
  base_name : String
  size : Nat
  mtime : Nat
deriving DecidableEq

/-- The characters after the last dot of a name, if any dot exists. -/
def extAfterLastDot : List Char → Option (List Char)
  | [] => none
  | c :: rest =>
    match extAfterLastDot rest with
    | some e => some e
    | none => if c = '.' then some rest else none

/-- `pyarrow.fs.FileInfo.extension` = `splitext(base_name)[1].strip('.')`:
the extension *without* its leading dot (`"parquet_old"` for
`"x.parquet_old"`).  (splitext's special case for leading-dot names like
`".bashrc"` is not modelled; no listing below uses such names.) -/
def fileExtension (name : String) : String :=
  match extAfterLastDot name.toList with
  | some e => String.mk e
  | none => ""

/-- Python `str.endswith`. -/
def strEndsWith (s suffix : String) : Bool :=
  charsStartWith suffix.toList.reverse s.toList.reverse

/-- `get_files`: the listing filtered by `base_name.endswith(extension)`
(the NotFound check and the recursive selector are part of the external
listing). -/
def getFiles (listing : List FileInfo) (extension : String := ".parquet") : List FileInfo :=
  listing.filter (fun f => strEndsWith f.base_name extension)

/-- Python `max(files, key=lambda file: file.mtime)`: the first maximal
element (later elements replace only on strictly greater key). -/
def maxByMtime (f : FileInfo) (rest : List FileInfo) : FileInfo :=
  rest.foldl (fun acc x => if x.mtime > acc.mtime then x else acc) f

/-- `get_most_recent_file`: a `.parquet_old` sentinel wins outright (at
most one may exist, per the assert); otherwise the most recently modified
`.parquet` file, or nothing. -/
def getMostRecentFile (listing : List FileInfo) : Except TargetError (Option FileInfo) :=
  let olds := getFiles listing ".parquet_old"
  if olds.length ≤ 1 then
    match olds with
    | f :: _ => .ok (some f)
    | [] =>
        match getFiles listing with
        | [] => .ok none
        | f :: rest => .ok (some (maxByMtime f rest))
  else .error (.assertionError
    "There is more than one old file in the HDFS path which is not expected")

/-- `set_file_as_old`: rename to the `_old` sentinel suffix unless the
path already carries it; `none` means no rename was performed. -/
def setFileAsOld (path : String) : Option String :=
  if strEndsWith path "_old" then none else some (path ++ "_old")

/-- The observable outcome of `read_most_recent_file`: the candidate that
was downloaded and returned (or `none` when a new file is forced), and the
rename-to-sentinel action performed, if any. -/
structure ReadResult where
  candidate : Option FileInfo
  movedToOld : Option String
deriving DecidableEq

/-- `read_most_recent_file`: force a new file when there is no candidate,
or when the candidate is at or above `0.85 ·` block size *and* its
`extension` differs from `".parquet_old"` — a comparison that is always
true, because `FileInfo.extension` never contains a leading dot; after a
download, the candidate is renamed to the sentinel under the same
(equally vacuous) guard, though `set_file_as_old`'s own `endswith("_old")`
check still prevents a double rename. -/
def readMostRecentFile (listing : List FileInfo) (blockSize : Nat) :
    Except TargetError ReadResult :=
  match getMostRecentFile listing with
  | .error e => .error e
  | .ok none => .ok ⟨none, none⟩
  | .ok (some f) =>
      if (f.size : ℚ) ≥ (blockSize : ℚ) * (85 / 100)
          ∧ fileExtension f.base_name ≠ ".parquet_old" then
        .ok ⟨none, none⟩
      else
        .ok ⟨some f,
             if fileExtension f.base_name ≠ ".parquet_old" then setFileAsOld f.base_name
             else none⟩

/-- A 120 MiB sentinel file (0.85 of a 128 MiB block is ≈108.8 MiB). -/
def c9Sentinel : FileInfo := ⟨"part-0001.parquet_old", 125829120, 50⟩

/-- **C9.** Evaluation at the failing input: `FileInfo.extension` of a
`.parquet_old` sentinel is `"parquet_old"` (no leading dot), so the
`extension != ".parquet_old"` guard is vacuously true; the sentinel is
selected as the candidate by `get_most_recent_file`, yet
`read_most_recent_file` with a 128 MiB block size returns no candidate —
the size exemption the claim (and the code's own guard) intends for
sentinels never applies.  The remaining conjuncts confirm the non-sentinel
behavior the claim describes: an oversized candidate is rejected, and an
accepted candidate is renamed to the sentinel suffix; an under-limit
sentinel is used and not renamed again. -/
theorem sentinel_size_exemption_dead :
    fileExtension "part-0001.parquet_old" = "parquet_old"
    ∧ getMostRecentFile [c9Sentinel] = .ok (some c9Sentinel)
    ∧ readMostRecentFile [c9Sentinel] 134217728 = .ok ⟨none, none⟩
    ∧ readMostRecentFile [⟨"part-0001.parquet", 125829120, 50⟩] 134217728 = .ok ⟨none, none⟩
    ∧ readMostRecentFile [⟨"part-0001.parquet", 1024, 50⟩] 134217728
        = .ok ⟨some ⟨"part-0001.parquet", 1024, 50⟩, some "part-0001.parquet_old"⟩
    ∧ readMostRecentFile [c9Sentinel] 268435456 = .ok ⟨some c9Sentinel, none⟩ := by
  have hext : fileExtension "part-0001.parquet_old" = "parquet_old" := by decide
  have hextp : fileExtension "part-0001.parquet" = "parquet" := by decide
  have hg1 : getMostRecentFile [c9Sentinel] = .ok (some c9Sentinel) := by decide
  have hg2 : getMostRecentFile [⟨"part-0001.parquet", 125829120, 50⟩]
      = .ok (some ⟨"part-0001.parquet", 125829120, 50⟩) := by decide
  have hg3 : getMostRecentFile [⟨"part-0001.parquet", 1024, 50⟩]
      = .ok (some ⟨"part-0001.parquet", 1024, 50⟩) := by decide
  refine ⟨hext, hg1, ?_, ?_, ?_, ?_⟩
  · simp only [readMostRecentFile, hg1]
    rw [if_pos]
    constructor
    · show ((125829120 : Nat) : ℚ) ≥ ((134217728 : Nat) : ℚ) * (85 / 100)
      norm_num
    · show fileExtension "part-0001.parquet_old" ≠ ".parquet_old"
      rw [hext]
      decide
  · simp only [readMostRecentFile, hg2]
    rw [if_pos]
    constructor
    · show ((125829120 : Nat) : ℚ) ≥ ((134217728 : Nat) : ℚ) * (85 / 100)
      norm_num
    · show fileExtension "part-0001.parquet" ≠ ".parquet_old"
      rw [hextp]
      decide
  · simp only [readMostRecentFile, hg3]
    rw [if_neg]
    · rw [if_pos (by decide)]
      rfl
    · rintro ⟨hs, -⟩
      revert hs
      show ¬(((1024 : Nat) : ℚ) ≥ ((134217728 : Nat) : ℚ) * (85 / 100))
      norm_num
  · simp only [readMostRecentFile, hg1]
    rw [if_neg]
    · rw [if_pos (by decide)]
      rfl
    · rintro ⟨hs, -⟩
      revert hs
      show ¬(((125829120 : Nat) : ℚ) ≥ ((268435456 : Nat) : ℚ) * (85 / 100))
      norm_num

end TargetHdfs
